import Mathlib

/-!
Shallow embedding of the builder assembly engine (package `builder`):
order resolution (`processOrder`), buildpack graph validation
(`validateBuildpacks`), lifecycle construction (`NewLifecycle` /
`validateBinaries`), the version-gated layer-composition decisions
(`orderLayer` / `buildpackLayer`) and the `Save` orchestration.

Pure functions are translated directly from the Go source; the stateful
`Save` method is modelled as a function from a builder state and an image
model (the external image abstraction, giving each operation's outcome) to
the list of operations performed on the image together with the returned
result.  Fallible code returns `Except`.
-/

/-- Semantic version (major.minor.patch), standing for `semver.Version`.
The semver library is an external collaborator of this package; the
builder only compares recorded lifecycle versions against `0.4.0`, so
prerelease/metadata tags (absent from those versions) are not modelled. -/
structure Version where
  major : Nat
  minor : Nat
  patch : Nat
deriving DecidableEq, Repr

/-- The semver `Version.LessThan`: lexicographic on major, minor, patch. -/
def Version.lessThan (a b : Version) : Bool :=
  if a.major ≠ b.major then decide (a.major < b.major)
  else if a.minor ≠ b.minor then decide (a.minor < b.minor)
  else decide (a.patch < b.patch)

/-- The constant `semver.MustParse("0.4.0")`, the compatibility pivot used by
`orderLayer` and `buildpackLayer`. -/
def version040 : Version := ⟨0, 4, 0⟩

/-- Identity tuple of a buildpack (type `BuildpackInfo` in the source). -/
structure BuildpackInfo where
  id : String
  version : String
deriving DecidableEq, Repr

/-- An entry of the metadata's flat list of known buildpacks
(type `BuildpackMetadata`). -/
structure BuildpackMetadata where
  info : BuildpackInfo
deriving DecidableEq, Repr

/-- A buildpack reference inside a detection group (type `BuildpackRef`:
embedded `BuildpackInfo` plus the `optional` flag). -/
structure BuildpackRef where
  info : BuildpackInfo
  optional : Bool
deriving DecidableEq, Repr

/-- One detection group (type `OrderEntry`, field `Group`). -/
structure OrderEntry where
  group : List BuildpackRef
deriving DecidableEq, Repr

/-- The source's `type Order []OrderEntry`. -/
abbrev Order := List OrderEntry

/-- Structured error produced by `processOrder`; each constructor carries
the data interpolated into the corresponding `fmt.Errorf` message:
`noVersionsFound` ↦ "no versions of buildpack {id} were found on the builder",
`multipleVersions` ↦ "unable to resolve version: multiple versions of {id} -
must specify an explicit version",
`versionNotFound` ↦ "buildpack {id} with version {version} was not found on
the builder". -/
inductive ProcessOrderError where
  | noVersionsFound (id : String)
  | multipleVersions (id : String)
  | versionNotFound (id : String) (version : String)
deriving DecidableEq, Repr

/-- Function `hasBuildpackWithVersion`: scans the list for an entry with the given
version (the Go loop with early `return true`). -/
def hasBuildpackWithVersion (bps : List BuildpackInfo) (version : String) : Bool :=
  bps.any (fun bp => bp.version == version)

/-- The `matchingBps` accumulation in `processOrder`'s inner loop: all
known buildpacks whose id equals the ref's id. -/
def matchingBps (buildpacks : List BuildpackMetadata) (bpRef : BuildpackRef) :
    List BuildpackInfo :=
  (buildpacks.filter (fun bp => bpRef.info.id == bp.info.id)).map BuildpackMetadata.info

/-- One iteration of `processOrder`'s inner loop over a single ref:
error when no version of the id is known; error when the ref version is
empty and more than one match exists; fill in the single match's version
when the ref version is empty; finally error unless some match carries the
ref's (possibly just filled-in) version. -/
def processRef (buildpacks : List BuildpackMetadata) (bpRef : BuildpackRef) :
    Except ProcessOrderError BuildpackRef :=
  let ms := matchingBps buildpacks bpRef
  if ms.length = 0 then
    .error (.noVersionsFound bpRef.info.id)
  else if bpRef.info.version = "" ∧ ms.length > 1 then
    .error (.multipleVersions bpRef.info.id)
  else
    let r :=
      if bpRef.info.version = "" then
        { bpRef with info := { bpRef.info with version := (ms.headD ⟨"", ""⟩).version } }
      else bpRef
    if hasBuildpackWithVersion ms r.info.version then .ok r
    else .error (.versionNotFound r.info.id r.info.version)

/-- The `processOrder` inner loop over the refs of one group (`g.Group`),
returning at the first error (the in-place mutation of resolved versions
becomes the returned updated list). -/
def processGroupRefs (buildpacks : List BuildpackMetadata) :
    List BuildpackRef → Except ProcessOrderError (List BuildpackRef)
  | [] => .ok []
  | r :: rs =>
    match processRef buildpacks r with
    | .error e => .error e
    | .ok r' =>
      match processGroupRefs buildpacks rs with
      | .error e => .error e
      | .ok rs' => .ok (r' :: rs')

/-- Function `processOrder`: outer loop over the groups of the order. -/
def processOrder (buildpacks : List BuildpackMetadata) :
    Order → Except ProcessOrderError Order
  | [] => .ok []
  | g :: gs =>
    match processGroupRefs buildpacks g.group with
    | .error e => .error e
    | .ok refs =>
      match processOrder buildpacks gs with
      | .error e => .error e
      | .ok gs' => .ok (⟨refs⟩ :: gs')

instance {ε α : Type} [DecidableEq ε] [DecidableEq α] : DecidableEq (Except ε α) := fun a b =>
  match a, b with
  | .error e, .error e' => if h : e = e' then .isTrue (by rw [h]) else .isFalse (by simp [h])
  | .ok x, .ok y => if h : x = y then .isTrue (by rw [h]) else .isFalse (by simp [h])
  | .error _, .ok _ => .isFalse (by simp)
  | .ok _, .error _ => .isFalse (by simp)

/-- A `processRef` error on the first ref of the first group is the result
of the whole `processOrder` run. -/
theorem processRef_error_processOrder (buildpacks : List BuildpackMetadata)
    (r : BuildpackRef) (rs : List BuildpackRef) (gs : List OrderEntry)
    (e : ProcessOrderError) (h : processRef buildpacks r = .error e) :
    processOrder buildpacks (⟨r :: rs⟩ :: gs) = .error e := by
  simp [processOrder, processGroupRefs, h]

/-- Claim C1: for every known-buildpack set, `processOrder` behaves case by
case on each ref (shown at the point the ref is processed, i.e. as the
first ref of the first group, and for the in-place-update case through
`processRef` / `processGroupRefs`, which `processOrder` folds over every
group): zero id matches fail with the not-found error naming the id; an
empty ref version with two or more matches fails with the ambiguity error
naming the id; an empty ref version with exactly one match sets the ref's
version to that match's version and continues; a non-empty ref version
matched by no known buildpack of that id fails with the error naming the
id and the version. -/
theorem processOrder_ref_case_analysis
    (buildpacks : List BuildpackMetadata) (r : BuildpackRef)
    (rs : List BuildpackRef) (gs : List OrderEntry) :
    (matchingBps buildpacks r = [] →
      processOrder buildpacks (⟨r :: rs⟩ :: gs) =
        .error (.noVersionsFound r.info.id)) ∧
    (r.info.version = "" → 2 ≤ (matchingBps buildpacks r).length →
      processOrder buildpacks (⟨r :: rs⟩ :: gs) =
        .error (.multipleVersions r.info.id)) ∧
    (∀ bp, r.info.version = "" → matchingBps buildpacks r = [bp] →
      processRef buildpacks r =
        .ok { r with info := { r.info with version := bp.version } } ∧
      processGroupRefs buildpacks (r :: rs) =
        Except.map (fun rs' => { r with info := { r.info with version := bp.version } } :: rs')
          (processGroupRefs buildpacks rs)) ∧
    (matchingBps buildpacks r ≠ [] → r.info.version ≠ "" →
      (∀ bp ∈ matchingBps buildpacks r, bp.version ≠ r.info.version) →
      processOrder buildpacks (⟨r :: rs⟩ :: gs) =
        .error (.versionNotFound r.info.id r.info.version)) := by
  refine ⟨fun h => ?_, fun hv hlen => ?_, fun bp hv hm => ?_, fun hne hv hall => ?_⟩
  · apply processRef_error_processOrder
    simp [processRef, h]
  · apply processRef_error_processOrder
    have h0 : ¬ (matchingBps buildpacks r).length = 0 := by omega
    have h1 : (matchingBps buildpacks r).length > 1 := by omega
    simp [processRef, h0, hv, h1]
  · have hr : processRef buildpacks r =
        .ok { r with info := { r.info with version := bp.version } } := by
      simp [processRef, hm, hv, hasBuildpackWithVersion]
    refine ⟨hr, ?_⟩
    rw [processGroupRefs, hr]
    cases processGroupRefs buildpacks rs <;> simp [Except.map]
  · apply processRef_error_processOrder
    have h0 : ¬ (matchingBps buildpacks r).length = 0 := by
      simpa [List.length_eq_zero] using hne
    have hfalse : hasBuildpackWithVersion (matchingBps buildpacks r) r.info.version = false := by
      simp only [hasBuildpackWithVersion, List.any_eq_false]
      intro bp hbp
      simpa using hall bp hbp
    simp [processRef, h0, hv, hfalse]

/-- Concrete instance of `processOrder_ref_case_analysis` (spec Scenario A):
the single known buildpack x@1.0 fills in an empty ref version. -/
theorem processOrder_ref_case_analysis_witness :
    processRef [⟨⟨"x", "1.0"⟩⟩] ⟨⟨"x", ""⟩, false⟩ = .ok ⟨⟨"x", "1.0"⟩, false⟩ ∧
    processOrder [⟨⟨"x", "1.0"⟩⟩, ⟨⟨"x", "2.0"⟩⟩] [⟨[⟨⟨"x", ""⟩, false⟩]⟩] =
      .error (.multipleVersions "x") :=
  ⟨((processOrder_ref_case_analysis [⟨⟨"x", "1.0"⟩⟩] ⟨⟨"x", ""⟩, false⟩ [] []).2.2.1
      ⟨"x", "1.0"⟩ rfl (by decide)).1,
    (processOrder_ref_case_analysis [⟨⟨"x", "1.0"⟩⟩, ⟨⟨"x", "2.0"⟩⟩]
      ⟨⟨"x", ""⟩, false⟩ [] []).2.1 rfl (by decide)⟩

/-- An archive entry of a blob (name plus raw contents).  The generic tar
helpers are external collaborators; a blob's archive is modelled as the
list of its entries in order. -/
structure TarEntry where
  name : String
  content : String
deriving DecidableEq, Repr

/-- A readable archive blob (`Blob` interface: `Open() (io.ReadCloser, error)`).
Opening either fails with an error message or yields the archive's
entries; repeated opens of the same blob behave identically. -/
structure Blob where
  openResult : Except String (List TarEntry)
deriving DecidableEq, Repr

/-- Modelled from the spec: the `Buildpack` artifact type lives in a file
of this repository that is not part of the sources at hand (only its use
in builder.go is); per the spec it carries its identity, its own nested
order (composite buildpack) or supported stack ids (leaf buildpack), and
a readable archive blob. -/
structure Buildpack where
  info : BuildpackInfo
  order : Order
  Stacks : List String
  blob : Blob
deriving DecidableEq, Repr

/-- Modelled from the spec: `Buildpack.SupportsStack` — the builder's
stack id must be among the buildpack's declared stacks. -/
def Buildpack.supportsStack (bp : Buildpack) (stackID : String) : Bool :=
  bp.Stacks.contains stackID

/-- The `id + "@" + version` key used for the `bpLookup` map in
`validateBuildpacks`. -/
def bpKey (info : BuildpackInfo) : String :=
  info.id ++ "@" ++ info.version

/-- Structured error of `validateBuildpacks`; constructors carry the data
of the corresponding `fmt.Errorf` messages:
`mustHaveStacksOrOrder` ↦ "buildpack {key} must have either stacks or an
order defined", `cannotHaveBoth` ↦ "buildpack {key} cannot have both stacks
and an order defined", `doesNotSupportStack` ↦ "buildpack {key} does not
support stack {stackID}", `notFoundOnBuilder` ↦ "buildpack {key} not found
on the builder". -/
inductive ValidateError where
  | mustHaveStacksOrOrder (key : String)
  | cannotHaveBoth (key : String)
  | doesNotSupportStack (key : String) (stackID : String)
  | notFoundOnBuilder (key : String)
deriving DecidableEq, Repr

/-- The first ref of the buildpack's nested order (groups in order, refs in
group order) whose `id@version` key is missing from the lookup — the ref on
which `validateBuildpacks`' innermost loops return an error. -/
def firstMissingRef (lookup : List String) : Order → Option BuildpackRef
  | [] => none
  | g :: gs =>
    match g.group.find? (fun ref => !(lookup.contains (bpKey ref.info))) with
    | some ref => some ref
    | none => firstMissingRef lookup gs

/-- The checks `validateBuildpacks` runs for one buildpack of the embedded
list: neither stacks nor order → error; both → error; declared stacks not
containing the builder's stack id → error; a nested-order ref missing from
the lookup → error. -/
def validateBuildpack (stackID : String) (lookup : List String) (bp : Buildpack) :
    Except ValidateError Unit :=
  if bp.order = [] ∧ bp.Stacks = [] then
    .error (.mustHaveStacksOrOrder (bpKey bp.info))
  else if bp.order ≠ [] ∧ bp.Stacks ≠ [] then
    .error (.cannotHaveBoth (bpKey bp.info))
  else if bp.Stacks ≠ [] ∧ bp.supportsStack stackID = false then
    .error (.doesNotSupportStack (bpKey bp.info) stackID)
  else
    match firstMissingRef lookup bp.order with
    | some ref => .error (.notFoundOnBuilder (bpKey ref.info))
    | none => .ok ()

/-- The `validateBuildpacks` loop over the embedded buildpacks, with the
lookup fixed, returning at the first error. -/
def validateAll (stackID : String) (lookup : List String) :
    List Buildpack → Except ValidateError Unit
  | [] => .ok ()
  | bp :: rest =>
    match validateBuildpack stackID lookup bp with
    | .error e => .error e
    | .ok _ => validateAll stackID lookup rest

/-- Function `validateBuildpacks`: builds the `id@version` lookup over the buildpacks
embedded in this pass, then validates each buildpack against it. -/
def validateBuildpacks (stackID : String) (bps : List Buildpack) :
    Except ValidateError Unit :=
  validateAll stackID (bps.map (fun bp => bpKey bp.info)) bps

/-- If the per-buildpack loop of `validateBuildpacks` succeeds, every
buildpack of the list passed its checks. -/
theorem validateAll_ok (stackID : String) (lookup : List String)
    (bps : List Buildpack) (h : validateAll stackID lookup bps = .ok ()) :
    ∀ bp ∈ bps, validateBuildpack stackID lookup bp = .ok () := by
  induction bps with
  | nil => simp
  | cons bp rest ih =>
    rw [validateAll] at h
    cases hvb : validateBuildpack stackID lookup bp with
    | error e => rw [hvb] at h; simp at h
    | ok u =>
      rw [hvb] at h
      intro bp' hmem
      rcases List.mem_cons.mp hmem with rfl | hmem'
      · cases u; exact hvb
      · exact ih h bp' hmem'

/-- A buildpack accepted by `validateBuildpack` has exactly one of a
non-empty nested order and a non-empty stack set. -/
theorem validateBuildpack_ok_exactlyOne (stackID : String) (lookup : List String)
    (bp : Buildpack) (h : validateBuildpack stackID lookup bp = .ok ()) :
    (bp.order ≠ [] ∧ bp.Stacks = []) ∨ (bp.order = [] ∧ bp.Stacks ≠ []) := by
  by_cases h1 : bp.order = [] ∧ bp.Stacks = []
  · rw [validateBuildpack, if_pos h1] at h; simp at h
  · by_cases h2 : bp.order ≠ [] ∧ bp.Stacks ≠ []
    · rw [validateBuildpack, if_neg h1, if_pos h2] at h; simp at h
    · tauto

/-- Claim C3: `validateBuildpacks` succeeds only when every embedded
buildpack has exactly one of {non-empty nested order, non-empty stack set};
a buildpack with neither is rejected with the must-have-either error, one
with both is rejected with the distinct cannot-have-both error. -/
theorem validateBuildpacks_exactly_one (stackID : String) (bps : List Buildpack) :
    (validateBuildpacks stackID bps = .ok () →
      ∀ bp ∈ bps, (bp.order ≠ [] ∧ bp.Stacks = []) ∨ (bp.order = [] ∧ bp.Stacks ≠ [])) ∧
    (∀ bp : Buildpack, bp.order = [] → bp.Stacks = [] →
      validateBuildpacks stackID [bp] = .error (.mustHaveStacksOrOrder (bpKey bp.info))) ∧
    (∀ bp : Buildpack, bp.order ≠ [] → bp.Stacks ≠ [] →
      validateBuildpacks stackID [bp] = .error (.cannotHaveBoth (bpKey bp.info))) := by
  refine ⟨fun h bp hmem => ?_, fun bp h1 h2 => ?_, fun bp h1 h2 => ?_⟩
  · exact validateBuildpack_ok_exactlyOne _ _ _
      (validateAll_ok _ _ _ h bp hmem)
  · rw [validateBuildpacks, validateAll, validateBuildpack, if_pos ⟨h1, h2⟩]
  · rw [validateBuildpacks, validateAll, validateBuildpack,
      if_neg (by simp [h1]), if_pos ⟨h1, h2⟩]

/-- Concrete instances of `validateBuildpacks_exactly_one` (spec Scenario C
and the dual both-defined rejection). -/
theorem validateBuildpacks_exactly_one_witness :
    validateBuildpacks "stack1" [⟨⟨"y", "1.0"⟩, [], [], ⟨.ok []⟩⟩] =
      .error (.mustHaveStacksOrOrder "y@1.0") ∧
    validateBuildpacks "stack1" [⟨⟨"z", "2.0"⟩, [⟨[]⟩], ["stack1"], ⟨.ok []⟩⟩] =
      .error (.cannotHaveBoth "z@2.0") :=
  ⟨(validateBuildpacks_exactly_one "stack1" []).2.1 _ rfl rfl,
    (validateBuildpacks_exactly_one "stack1" []).2.2 _ (by decide) (by decide)⟩

/-- Function `firstMissingRef` finds nothing exactly when every ref of every group
of the nested order has its `id@version` key in the lookup. -/
theorem firstMissingRef_none_iff (lookup : List String) (order : Order) :
    firstMissingRef lookup order = none ↔
      ∀ g ∈ order, ∀ ref ∈ g.group, lookup.contains (bpKey ref.info) = true := by
  induction order with
  | nil => simp [firstMissingRef]
  | cons g gs ih =>
    rw [firstMissingRef]
    cases hf : g.group.find? (fun ref => !(lookup.contains (bpKey ref.info))) with
    | some ref =>
      have hp := List.find?_some hf
      have hmem := List.mem_of_find?_eq_some hf
      have hp' : lookup.contains (bpKey ref.info) = false := by
        simpa using hp
      simp only [List.forall_mem_cons]
      constructor
      · intro h; cases h
      · intro h
        rw [h.1 ref hmem] at hp'
        cases hp'
    | none =>
      have hall := List.find?_eq_none.mp hf
      simp only [List.forall_mem_cons, ih]
      constructor
      · intro h
        refine ⟨fun ref hmem => ?_, h⟩
        have := hall ref hmem
        simpa using this
      · intro h
        exact h.2

/-- For a buildpack with a nested order and no stacks, `validateBuildpack`
reduces to the lookup check on the nested order's refs. -/
theorem validateBuildpack_order_iff (stackID : String) (lookup : List String)
    (bp : Buildpack) (ho : bp.order ≠ []) (hs : bp.Stacks = []) :
    validateBuildpack stackID lookup bp = .ok () ↔
      ∀ g ∈ bp.order, ∀ ref ∈ g.group, lookup.contains (bpKey ref.info) = true := by
  rw [validateBuildpack, if_neg (by simp [ho]), if_neg (by simp [hs]),
    if_neg (by simp [hs]), ← firstMissingRef_none_iff]
  cases firstMissingRef lookup bp.order <;> simp

/-- A buildpack accepted by `validateBuildpack` has every nested-order ref
key in the lookup. -/
theorem validateBuildpack_ok_refs (stackID : String) (lookup : List String)
    (bp : Buildpack) (h : validateBuildpack stackID lookup bp = .ok ()) :
    ∀ g ∈ bp.order, ∀ ref ∈ g.group, lookup.contains (bpKey ref.info) = true := by
  intro g hg ref href
  rcases validateBuildpack_ok_exactlyOne stackID lookup bp h with ⟨ho, hs⟩ | ⟨ho, _⟩
  · exact (validateBuildpack_order_iff stackID lookup bp ho hs).mp h g hg ref href
  · rw [ho] at hg; cases hg

/-- Claim C4 (amended): acceptance of a composite buildpack is keyed by the
concatenated `id@version` string: `validateBuildpacks` succeeds only when
every nested-order ref's key is among the embedded buildpacks' keys; for a
buildpack with a nested order and no stacks the per-buildpack check passes
iff every ref's key appears; the first ref whose key is absent produces the
not-found-on-the-builder error naming that `id@version` key; and key
membership means key equality with some embedded buildpack (identity
equality only when ids are `@`-free). -/
theorem validateBuildpacks_nested_order_refs (stackID : String) (bps : List Buildpack) :
    (validateBuildpacks stackID bps = .ok () →
      ∀ bp ∈ bps, ∀ g ∈ bp.order, ∀ ref ∈ g.group,
        (bps.map (fun bp2 => bpKey bp2.info)).contains (bpKey ref.info) = true) ∧
    (∀ bp : Buildpack, bp.order ≠ [] → bp.Stacks = [] →
      (validateBuildpack stackID (bps.map (fun bp2 => bpKey bp2.info)) bp = .ok () ↔
        ∀ g ∈ bp.order, ∀ ref ∈ g.group,
          (bps.map (fun bp2 => bpKey bp2.info)).contains (bpKey ref.info) = true)) ∧
    (∀ bp : Buildpack, ∀ ref : BuildpackRef, bp.order ≠ [] → bp.Stacks = [] →
      firstMissingRef (bps.map (fun bp2 => bpKey bp2.info)) bp.order = some ref →
      validateBuildpack stackID (bps.map (fun bp2 => bpKey bp2.info)) bp =
        .error (.notFoundOnBuilder (bpKey ref.info))) ∧
    (∀ key : String, (bps.map (fun bp2 => bpKey bp2.info)).contains key = true ↔
      ∃ bp2 ∈ bps, bpKey bp2.info = key) := by
  refine ⟨fun h bp hmem => ?_, fun bp ho hs => ?_, fun bp ref ho hs hfm => ?_, fun key => ?_⟩
  · exact validateBuildpack_ok_refs _ _ _ (validateAll_ok _ _ _ h bp hmem)
  · exact validateBuildpack_order_iff _ _ _ ho hs
  · rw [validateBuildpack, if_neg (by simp [ho]), if_neg (by simp [hs]),
      if_neg (by simp [hs]), hfm]
  · simp [List.contains_iff_exists_mem_beq, List.mem_map]

/-- A leaf buildpack whose id contains the `@` separator. -/
def aliasLeaf : Buildpack := ⟨⟨"a@b", "c"⟩, [], ["stack1"], ⟨.ok []⟩⟩

/-- A composite buildpack whose nested order references id "a" at version
"b@c", which no embedded buildpack has as its identity. -/
def aliasMeta : Buildpack := ⟨⟨"m", "1"⟩, [⟨[⟨⟨"a", "b@c"⟩, false⟩]⟩], [], ⟨.ok []⟩⟩

/-- Claim C4 as stated is false on the code: the run validates by the
concatenated `id@version` string, so the ref (id "a", version "b@c")
aliases the embedded buildpack (id "a@b", version "c"): `validateBuildpacks`
accepts the pass although the ref matches no embedded buildpack's identity. -/
theorem validateBuildpacks_identity_counterexample :
    validateBuildpacks "stack1" [aliasLeaf, aliasMeta] = .ok () ∧
    aliasMeta ∈ [aliasLeaf, aliasMeta] ∧
    (⟨[⟨⟨"a", "b@c"⟩, false⟩]⟩ : OrderEntry) ∈ aliasMeta.order ∧
    (⟨⟨"a", "b@c"⟩, false⟩ : BuildpackRef) ∈ (⟨[⟨⟨"a", "b@c"⟩, false⟩]⟩ : OrderEntry).group ∧
    ¬ ∃ bp ∈ [aliasLeaf, aliasMeta], bp.info.id = "a" ∧ bp.info.version = "b@c" := by
  decide

/-- A composite buildpack referencing the unembedded x@9. -/
def missingRefMeta : Buildpack := ⟨⟨"m", "1"⟩, [⟨[⟨⟨"x", "9"⟩, false⟩]⟩], [], ⟨.ok []⟩⟩

/-- Concrete instance of `validateBuildpacks_nested_order_refs`: a missing
ref key produces the not-found error naming the `id@version`. -/
theorem validateBuildpacks_nested_order_refs_witness :
    validateBuildpack "stack1" ([missingRefMeta].map (fun bp2 => bpKey bp2.info))
      missingRefMeta =
      .error (.notFoundOnBuilder (bpKey ⟨"x", "9"⟩)) :=
  (validateBuildpacks_nested_order_refs "stack1" [missingRefMeta]).2.2.1
    missingRefMeta ⟨⟨"x", "9"⟩, false⟩ (by decide) rfl (by decide)

/-- Splitting a character list at every '/' (the raw components of a
slash-separated path, empty components included). -/
def splitSlash : List Char → List (List Char)
  | [] => [[]]
  | c :: rest =>
    let r := splitSlash rest
    if c = '/' then [] :: r
    else (c :: r.headD []) :: r.tail

/-- Joining path components with '/'. -/
def joinSlash : List (List Char) → List Char
  | [] => []
  | [c] => c
  | c :: cs => c ++ '/' :: joinSlash cs

/-- Go's `path.Clean` for slash-separated paths (standard library,
external to this package): drops "." and empty components, resolves ".."
against preceding components (erasing it at the root of a rooted path,
keeping it at the front of a relative one); the empty path cleans to ".". -/
def pathClean (p : String) : String :=
  if p = "" then "."
  else
    let cs := p.toList
    let rooted := cs.headD ' ' = '/'
    let comps := (splitSlash cs).filter (fun c => !c.isEmpty && c ≠ ['.'])
    let stack := comps.foldl
      (fun acc c =>
        if c = ['.', '.'] then
          match acc with
          | [] => if rooted then [] else [['.', '.']]
          | top :: rest => if top = ['.', '.'] then c :: acc else rest
        else c :: acc) []
    let out := joinSlash stack.reverse
    if rooted then ⟨'/' :: out⟩
    else if out.isEmpty then "." else ⟨out⟩

/-- The submatch of the regex `^[^/]+/([^/]+)$` applied to the cleaned
entry name (used by both `validateBinaries` and `embedLifecycleTar`): the
filename component of a path with exactly one non-empty directory
component followed by one non-empty filename component, else none. -/
def binaryNameOf (name : String) : Option String :=
  match splitSlash (pathClean name).toList with
  | [a, b] => if !a.isEmpty && !b.isEmpty then some ⟨b⟩ else none
  | _ => none

/-- Constant `lifecycleBinaries`: the fixed required executable names. -/
def lifecycleBinaries : List String :=
  ["detector", "restorer", "analyzer", "builder", "exporter", "cacher", "launcher"]

/-- Type `LifecycleInfo` (descriptor section `lifecycle`): the recorded version
(`*Version`, nil when absent). -/
structure LifecycleInfo where
  version : Option Version
deriving DecidableEq, Repr

/-- Type `LifecycleAPI` (descriptor section `api`): platform and buildpack API
versions. -/
structure LifecycleAPI where
  platformVersion : String
  buildpackVersion : String
deriving DecidableEq, Repr

/-- Type `LifecycleDescriptor`: the decoded `lifecycle.toml` document. -/
structure LifecycleDescriptor where
  info : LifecycleInfo
  api : LifecycleAPI
deriving DecidableEq, Repr

/-- Constant `DefaultLifecycleDescriptor`: version "0.3.0", both API versions "0.1". -/
def DefaultLifecycleDescriptor : LifecycleDescriptor :=
  ⟨⟨some ⟨0, 3, 0⟩⟩, ⟨"0.1", "0.1"⟩⟩

/-- The concrete `lifecycle` struct: resolved descriptor plus the blob. -/
structure Lifecycle where
  descriptor : LifecycleDescriptor
  blob : Blob
deriving DecidableEq, Repr

/-- Modelled from the spec: `archive.ReadTarEntry` lives in an internal
helper package outside the sources at hand; per the spec it reads the
single well-known descriptor entry from the blob, reporting absence
distinctly (`ErrEntryNotExist`). -/
def readTarEntry (entries : List TarEntry) (name : String) : Option TarEntry :=
  entries.find? (fun e => e.name == name)

/-- Structured error of lifecycle construction: a failed blob open
(wrapped message), a descriptor that does not decode ("decoding
descriptor"), or a missing required executable ("did not find '{name}'
in tar"). -/
inductive LifecycleError where
  | openBlob (msg : String)
  | decodingDescriptor
  | missingBinary (name : String)
deriving DecidableEq, Repr

/-- The executable names observed in the archive: the regex submatch of
each entry's cleaned name (the `headers` set of `validateBinaries`). -/
def observedBinaries (entries : List TarEntry) : List String :=
  entries.filterMap (fun e => binaryNameOf e.name)

/-- Method `lifecycle.validateBinaries`: re-opens the blob, collects observed
executable names, and errors on the first required name not observed. -/
def validateBinaries (blob : Blob) : Except LifecycleError Unit :=
  match blob.openResult with
  | .error msg => .error (.openBlob msg)
  | .ok entries =>
    match lifecycleBinaries.find? (fun p => !((observedBinaries entries).contains p)) with
    | some p => .error (.missingBinary p)
    | none => .ok ()

/-- Function `NewLifecycle`: opens the blob and reads the descriptor entry.  When
the entry does not exist the blob is accepted at once with the default
descriptor (the binary check is not reached); otherwise the entry is
decoded (decode failure is fatal) and `validateBinaries` must pass.
TOML decoding is an external collaborator, passed in as a function. -/
def NewLifecycle (decode : String → Option LifecycleDescriptor) (blob : Blob) :
    Except LifecycleError Lifecycle :=
  match blob.openResult with
  | .error msg => .error (.openBlob msg)
  | .ok entries =>
    match readTarEntry entries "lifecycle.toml" with
    | none => .ok ⟨DefaultLifecycleDescriptor, blob⟩
    | some entry =>
      match decode entry.content with
      | none => .error .decodingDescriptor
      | some descriptor =>
        match validateBinaries blob with
        | .error e => .error e
        | .ok _ => .ok ⟨descriptor, blob⟩

/-- A lifecycle blob that opens to an archive with no entries at all: no
descriptor entry and none of the required executables. -/
def descriptorlessBlob : Blob := ⟨.ok []⟩

/-- Claim C2 as stated is false on the code: for a blob with no descriptor
entry, `NewLifecycle` returns the default-descriptor lifecycle before the
binary check is reached, so construction succeeds although none of the
seven required executable names is observed (here `validateBinaries`
itself would have rejected the same blob). -/
theorem NewLifecycle_skips_binary_check_counterexample :
    NewLifecycle (fun _ => none) descriptorlessBlob =
      .ok ⟨DefaultLifecycleDescriptor, descriptorlessBlob⟩ ∧
    "exporter" ∈ lifecycleBinaries ∧
    observedBinaries [] = [] ∧
    validateBinaries descriptorlessBlob = .error (.missingBinary "detector") := by
  decide

/-- Bridge between the Boolean `List.contains` used in the embedding and
propositional membership, for string lists. -/
theorem list_contains_iff_mem {l : List String} {a : String} :
    l.contains a = true ↔ a ∈ l := by
  simp [List.contains_iff_exists_mem_beq]

/-- Claim C2 (amended): binary validation gates construction only for
blobs whose descriptor entry exists and decodes: for those, `NewLifecycle`
succeeds (with the decoded descriptor and the same blob) iff every one of
the seven required executable names is observed, and a missing required
name yields the missing-binary error naming such a name; a blob with no
descriptor entry is accepted at once with the default descriptor, skipping
the binary check. -/
theorem NewLifecycle_binary_validation (decode : String → Option LifecycleDescriptor)
    (blob : Blob) (entries : List TarEntry)
    (hopen : blob.openResult = .ok entries) :
    (readTarEntry entries "lifecycle.toml" = none →
      NewLifecycle decode blob = .ok ⟨DefaultLifecycleDescriptor, blob⟩) ∧
    (∀ entry descriptor, readTarEntry entries "lifecycle.toml" = some entry →
      decode entry.content = some descriptor →
      ((NewLifecycle decode blob = .ok ⟨descriptor, blob⟩) ↔
        ∀ p ∈ lifecycleBinaries, p ∈ observedBinaries entries) ∧
      ((∃ p ∈ lifecycleBinaries, p ∉ observedBinaries entries) →
        ∃ p ∈ lifecycleBinaries, p ∉ observedBinaries entries ∧
          NewLifecycle decode blob = .error (.missingBinary p))) := by
  constructor
  · intro hnone
    simp only [NewLifecycle, hopen, hnone]
  · intro entry descriptor hentry hdec
    simp only [NewLifecycle, validateBinaries, hopen, hentry, hdec]
    cases hfind : lifecycleBinaries.find?
        (fun p => !((observedBinaries entries).contains p)) with
    | some p =>
      simp only [hfind]
      have hp : ((observedBinaries entries).contains p) = false := by
        simpa using List.find?_some hfind
      have hpmem := List.mem_of_find?_eq_some hfind
      have hnotobs : p ∉ observedBinaries entries := by
        intro hmem
        rw [list_contains_iff_mem.mpr hmem] at hp
        cases hp
      constructor
      · constructor
        · intro h; cases h
        · intro hall
          exact absurd (hall p hpmem) hnotobs
      · intro _
        exact ⟨p, hpmem, hnotobs, rfl⟩
    | none =>
      simp only [hfind]
      have hall := List.find?_eq_none.mp hfind
      have hobs : ∀ p ∈ lifecycleBinaries, p ∈ observedBinaries entries := by
        intro p hp
        have hc := hall p hp
        simp only [Bool.not_eq_true', Bool.not_eq_false] at hc
        exact list_contains_iff_mem.mp hc
      constructor
      · constructor
        · intro _
          exact hobs
        · intro _
          trivial
      · rintro ⟨p, hpmem, hpnot⟩
        exact absurd (hobs p hpmem) hpnot

/-- A lifecycle blob with a descriptor entry and all seven required
executables under the top-level directory "lifecycle". -/
def fullLifecycleBlob : Blob := ⟨.ok
  [⟨"lifecycle.toml", "descriptor-contents"⟩,
   ⟨"lifecycle/detector", ""⟩, ⟨"lifecycle/restorer", ""⟩,
   ⟨"lifecycle/analyzer", ""⟩, ⟨"lifecycle/builder", ""⟩,
   ⟨"lifecycle/exporter", ""⟩, ⟨"lifecycle/cacher", ""⟩,
   ⟨"lifecycle/launcher", ""⟩]⟩

/-- A stand-in for external TOML decoding that decodes every document to
the default descriptor. -/
def decodeToDefault : String → Option LifecycleDescriptor :=
  fun _ => some DefaultLifecycleDescriptor

/-- Concrete instance of `NewLifecycle_binary_validation`: a blob holding
a descriptor entry and all seven executables is accepted. -/
theorem NewLifecycle_binary_validation_witness :
    NewLifecycle decodeToDefault fullLifecycleBlob =
      .ok ⟨DefaultLifecycleDescriptor, fullLifecycleBlob⟩ :=
  ((NewLifecycle_binary_validation decodeToDefault fullLifecycleBlob _ rfl).2
    ⟨"lifecycle.toml", "descriptor-contents"⟩ DefaultLifecycleDescriptor rfl rfl).1.mpr
    (by decide)

/-- Type `RunImageMetadata`: run-image reference plus mirror list. -/
structure RunImageMetadata where
  image : String
  mirrors : List String
deriving DecidableEq, Repr

/-- Type `StackMetadata`: the stack block of the metadata record. -/
structure StackMetadata where
  runImage : RunImageMetadata
deriving DecidableEq, Repr

/-- Modelled from the spec: the legacy groups view type (`v1Group`) lives
in a metadata file outside the sources at hand; per the spec it is the
backward-compatible representation of one detection group. -/
structure V1Group where
  buildpacks : List BuildpackRef
deriving DecidableEq, Repr

/-- The legacy groups list (`v1OrderTOML`'s `Groups` field type). -/
abbrev V1Order := List V1Group

/-- Modelled from the spec: `Order.ToV1Order` derives the legacy groups
view from the order — one legacy group per order entry, carrying that
entry's refs. -/
def Order.toV1Order (o : Order) : V1Order :=
  o.map (fun e => ⟨e.group⟩)

/-- Type `LifecycleMetadata` (the `Lifecycle` field of the metadata record):
embedded `LifecycleInfo` plus the API block. -/
structure LifecycleMetadata where
  info : LifecycleInfo
  api : LifecycleAPI
deriving DecidableEq, Repr

/-- The `Metadata` record serialized into the builder's metadata label. -/
structure Metadata where
  description : String
  buildpacks : List BuildpackMetadata
  groups : V1Order
  stack : StackMetadata
  lifecycle : LifecycleMetadata
deriving DecidableEq, Repr

/-- Modelled from the spec: the name of the metadata label (the exact
constant lives in the metadata file outside the sources at hand). -/
def MetadataLabel : String := "io.buildpacks.builder.metadata"

/-- The `Builder` aggregate state.  The external image handle is not part
of the state here; `Builder.save` receives the image abstraction's
behaviour separately as an `ImageModel`. -/
structure Builder where
  lifecycle : Option Lifecycle
  additionalBuildpacks : List Buildpack
  metadata : Metadata
  env : List (String × String)
  UID : Int
  GID : Int
  StackID : String
  replaceOrder : Bool
  order : Order
deriving DecidableEq, Repr

/-- Method `Builder.GetLifecycleVersion`: the recorded lifecycle version from the
metadata, nil when absent. -/
def Builder.getLifecycleVersion (b : Builder) : Option Version :=
  b.metadata.lifecycle.info.version

/-- The two shapes of the order document (`v1OrderTOML`: bare groups list;
`orderTOML`: entries wrapped under the "order" key). -/
inductive OrderTomlData where
  | v1 (groups : V1Order)
  | current (order : Order)
deriving DecidableEq, Repr

/-- The `orderLayer` document choice: the legacy groups shape when a
lifecycle version is recorded and is less than 0.4.0, else the current
shape wrapping the order. -/
def orderTomlDataFor (lifecycleVersion : Option Version) (groups : V1Order)
    (order : Order) : OrderTomlData :=
  match lifecycleVersion with
  | some v => if v.lessThan version040 then .v1 groups else .current order
  | none => .current order

/-- The document `orderLayer` writes for a given builder state. -/
def Builder.orderLayerData (b : Builder) : OrderTomlData :=
  orderTomlDataFor b.getLifecycleVersion b.metadata.groups b.order

/-- The `buildpackLayer` decision to add the legacy "latest" symlink alias:
only when a lifecycle version is recorded and is less than 0.4.0. -/
def writesLatestSymlink (lifecycleVersion : Option Version) : Bool :=
  match lifecycleVersion with
  | some v => v.lessThan version040
  | none => false

/-- Whether `buildpackLayer` adds the "latest" symlink for a given builder
state. -/
def Builder.buildpackLayerHasLatestSymlink (b : Builder) : Bool :=
  writesLatestSymlink b.getLifecycleVersion

/-- Description of one layer handed to `image.AddLayer`, identifying the
layer and the version-gated content decisions the claims are about. -/
inductive LayerDesc where
  | dirs
  | env (entries : List (String × String))
  | lifecycle
  | buildpack (info : BuildpackInfo) (latestSymlink : Bool)
  | order (data : OrderTomlData)
  | stack (stack : StackMetadata)
deriving DecidableEq, Repr

/-- An operation performed on the external image abstraction. -/
inductive ImageOp where
  | addLayer (desc : LayerDesc)
  | setLabel (label : String) (metadata : Metadata)
  | setWorkingDir (dir : String)
  | commit
deriving DecidableEq, Repr

/-- The external image abstraction, given as the outcome it produces for
each operation `Save` performs: `none` is success, `some msg` a failure
carrying that message. -/
structure ImageModel where
  addLayerOk : LayerDesc → Option String
  setLabelOk : Option String
  setWorkingDirOk : Option String
  saveOk : Option String

/-- Structured error of `Builder.save`; constructors carry the wrap
context of the corresponding error path in the source (`nilReaderCrash`
stands for the runtime crash documented at `buildpackStage`). -/
inductive SaveError where
  | processingOrder (e : ProcessOrderError)
  | processingMetadata (msg : String)
  | validatingBuildpacks (e : ValidateError)
  | addingDirsLayer (msg : String)
  | addingEnvLayer (msg : String)
  | openingLifecycle (msg : String)
  | addingLifecycleLayer (msg : String)
  | nilReaderCrash
  | addingBuildpackLayer (info : BuildpackInfo) (msg : String)
  | addingOrderLayer (msg : String)
  | addingStackLayer (msg : String)
  | settingLabel (msg : String)
  | settingWorkingDir (msg : String)
  | committing (msg : String)
deriving DecidableEq, Repr

/-- Modelled from the spec: `processMetadata` (called by `Save` between
the groups regeneration and buildpack validation) lives in a metadata
file outside the sources at hand; the spec describes no metadata
transformation at this step — its invariant is that `groups` stays the
freshly derived view of `order` — so it is modelled as the identity,
fallible like the original call site. -/
def processMetadata (md : Metadata) : Except String Metadata := .ok md

/-- One orchestration stage of `Save`: the image operations it performed
and its result. -/
abbrev Stage := List ImageOp × Except SaveError Unit

/-- Runs stages in sequence, stopping at the first failure and
concatenating the operations performed. -/
def runStages : List Stage → Stage
  | [] => ([], .ok ())
  | (ops, .error e) :: _ => (ops, .error e)
  | (ops, .ok _) :: rest =>
    let p := runStages rest
    (ops ++ p.1, p.2)

/-- Creating a layer tar and handing it to `image.AddLayer`, with the wrap
applied to an addition failure. -/
def addLayerOp (img : ImageModel) (desc : LayerDesc) (wrap : String → SaveError) : Stage :=
  match img.addLayerOk desc with
  | some msg => ([.addLayer desc], .error (wrap msg))
  | none => ([.addLayer desc], .ok ())

/-- The lifecycle-layer stage of `Save`: nothing when no lifecycle is set;
otherwise `lifecycleLayer` opens the lifecycle blob (`embedLifecycleTar`,
wrap "failed to open lifecycle") and, on success, the layer is added. -/
def lifecycleStages (img : ImageModel) (b : Builder) : List Stage :=
  match b.lifecycle with
  | none => []
  | some lc =>
    [match lc.blob.openResult with
     | .error msg => ([], .error (.openingLifecycle msg))
     | .ok _ => addLayerOp img .lifecycle SaveError.addingLifecycleLayer]

/-- The per-buildpack stage of `Save`: `buildpackLayer` composes the layer
and the layer is added (wrap "adding layer tar for buildpack {id}:{version}").
In `embedBuildpackTar` the source computes `errors.Wrap(err, "read
buildpack blob")` for a failed `bp.Open()` but does not return it, and
then reads from the nil reader, which crashes with a nil-pointer
dereference at run time; that path is modelled as the distinguished
`nilReaderCrash` outcome (not the wrapped open error).  The composed
layer carries the legacy "latest" symlink alias exactly when the
metadata's recorded lifecycle version is older than 0.4.0. -/
def buildpackStage (img : ImageModel) (md : Metadata) (bp : Buildpack) : Stage :=
  match bp.blob.openResult with
  | .error _ => ([], .error .nilReaderCrash)
  | .ok _ =>
    addLayerOp img (.buildpack bp.info (writesLatestSymlink md.lifecycle.info.version))
      (SaveError.addingBuildpackLayer bp.info)

/-- The order-layer stage of `Save`: emitted only when the order was
explicitly replaced; the document shape follows `orderTomlDataFor` on the
metadata as updated by this `Save` run and the resolved order. -/
def orderStages (img : ImageModel) (b : Builder) (order1 : Order) (md : Metadata) :
    List Stage :=
  if b.replaceOrder then
    [addLayerOp img (.order (orderTomlDataFor md.lifecycle.info.version md.groups order1))
      SaveError.addingOrderLayer]
  else []

/-- Serializing the metadata into the metadata label (`image.SetLabel`). -/
def setLabelStage (img : ImageModel) (md : Metadata) : Stage :=
  match img.setLabelOk with
  | some msg => ([.setLabel MetadataLabel md], .error (.settingLabel msg))
  | none => ([.setLabel MetadataLabel md], .ok ())

/-- Operation `image.SetWorkingDir(layersDir)`. -/
def setWorkingDirStage (img : ImageModel) : Stage :=
  match img.setWorkingDirOk with
  | some msg => ([.setWorkingDir "/layers"], .error (.settingWorkingDir msg))
  | none => ([.setWorkingDir "/layers"], .ok ())

/-- Operation `image.Save()`, the commit. -/
def commitStage (img : ImageModel) : Stage :=
  match img.saveOk with
  | some msg => ([.commit], .error (.committing msg))
  | none => ([.commit], .ok ())

/-- The metadata after the updates `Save` applies before emitting layers:
groups regenerated from the resolved order (already inside `md0`), then,
when a lifecycle is set, the lifecycle info/API copied from its
descriptor. -/
def withLifecycleDescriptor (b : Builder) (md0 : Metadata) : Metadata :=
  match b.lifecycle with
  | some lc => { md0 with lifecycle := ⟨lc.descriptor.info, lc.descriptor.api⟩ }
  | none => md0

/-- Method `Builder.Save`: order resolution, groups regeneration, metadata
processing, buildpack validation, then the fixed layer sequence followed
by label, working directory and commit, stopping at the first failure. -/
def Builder.save (img : ImageModel) (b : Builder) : Stage :=
  match processOrder b.metadata.buildpacks b.order with
  | .error e => ([], .error (.processingOrder e))
  | .ok order1 =>
    match processMetadata { b.metadata with groups := Order.toV1Order order1 } with
    | .error msg => ([], .error (.processingMetadata msg))
    | .ok md0 =>
      match validateBuildpacks b.StackID b.additionalBuildpacks with
      | .error e => ([], .error (.validatingBuildpacks e))
      | .ok _ =>
        let md1 := withLifecycleDescriptor b md0
        runStages
          ([addLayerOp img .dirs SaveError.addingDirsLayer,
            addLayerOp img (.env b.env) SaveError.addingEnvLayer]
            ++ lifecycleStages img b
            ++ b.additionalBuildpacks.map (buildpackStage img md1)
            ++ orderStages img b order1 md1
            ++ [addLayerOp img (.stack md1.stack) SaveError.addingStackLayer,
              setLabelStage img md1,
              setWorkingDirStage img,
              commitStage img])

/-- The image-operation sequence a fully successful `Save` performs:
layers in the fixed order (directories, environment, lifecycle when set,
one per pending buildpack in registration order, order when replaced,
stack), then the metadata label, the working directory, the commit. -/
def Builder.plannedOps (b : Builder) : List ImageOp :=
  match processOrder b.metadata.buildpacks b.order with
  | .error _ => []
  | .ok order1 =>
    match processMetadata { b.metadata with groups := Order.toV1Order order1 } with
    | .error _ => []
    | .ok md0 =>
      match validateBuildpacks b.StackID b.additionalBuildpacks with
      | .error _ => []
      | .ok _ =>
        let md1 := withLifecycleDescriptor b md0
        [ImageOp.addLayer .dirs, ImageOp.addLayer (.env b.env)]
          ++ (match b.lifecycle with
            | some _ => [ImageOp.addLayer .lifecycle]
            | none => [])
          ++ b.additionalBuildpacks.map (fun bp =>
            ImageOp.addLayer (.buildpack bp.info
              (writesLatestSymlink md1.lifecycle.info.version)))
          ++ (if b.replaceOrder then
              [ImageOp.addLayer (.order
                (orderTomlDataFor md1.lifecycle.info.version md1.groups order1))]
            else [])
          ++ [ImageOp.addLayer (.stack md1.stack),
            ImageOp.setLabel MetadataLabel md1,
            ImageOp.setWorkingDir "/layers",
            ImageOp.commit]

/-- Claim C5: the compatibility pivot is exactly 0.4.0: with a recorded
lifecycle version below it, `orderLayer` writes the legacy bare-groups
shape and `buildpackLayer` adds the "latest" symlink; at or above it
(including exactly 0.4.0) the current wrapped shape is written and no
symlink is added.  The final conjuncts pin the boundary: 0.4.0 itself is
not below the pivot while 0.3.9 is. -/
theorem lifecycle_version_pivot (b : Builder) (v : Version)
    (hv : b.getLifecycleVersion = some v) :
    (v.lessThan version040 = true →
      b.orderLayerData = .v1 b.metadata.groups ∧
      b.buildpackLayerHasLatestSymlink = true) ∧
    (v.lessThan version040 = false →
      b.orderLayerData = .current b.order ∧
      b.buildpackLayerHasLatestSymlink = false) ∧
    Version.lessThan ⟨0, 4, 0⟩ version040 = false ∧
    Version.lessThan ⟨0, 3, 9⟩ version040 = true := by
  refine ⟨fun hlt => ?_, fun hge => ?_, by decide, by decide⟩
  · constructor
    · simp [Builder.orderLayerData, orderTomlDataFor, hv, hlt]
    · simp [Builder.buildpackLayerHasLatestSymlink, writesLatestSymlink, hv, hlt]
  · constructor
    · simp [Builder.orderLayerData, orderTomlDataFor, hv, hge]
    · simp [Builder.buildpackLayerHasLatestSymlink, writesLatestSymlink, hv, hge]

/-- A builder whose metadata records lifecycle version 0.3.9 over an
otherwise empty state. -/
def legacyBuilder : Builder :=
  ⟨none, [], ⟨"", [], [], ⟨⟨"run", []⟩⟩, ⟨⟨some ⟨0, 3, 9⟩⟩, ⟨"0.1", "0.1"⟩⟩⟩,
    [], 0, 0, "stack1", false, []⟩

/-- Concrete instance of `lifecycle_version_pivot` at version 0.3.9: the
legacy shape is used and the symlink written. -/
theorem lifecycle_version_pivot_witness :
    Builder.orderLayerData legacyBuilder = .v1 [] ∧
    Builder.buildpackLayerHasLatestSymlink legacyBuilder = true :=
  (lifecycle_version_pivot legacyBuilder ⟨0, 3, 9⟩ rfl).1 (by decide)

/-- Claim C10: with no recorded lifecycle version (`GetLifecycleVersion`
returns nil), the modern regime applies: the order layer uses the current
wrapped shape and no "latest" symlink is written — the legacy behaviours
require a present version strictly below 0.4.0. -/
theorem no_lifecycle_version_modern_regime (b : Builder)
    (hv : b.getLifecycleVersion = none) :
    b.orderLayerData = .current b.order ∧
    b.buildpackLayerHasLatestSymlink = false := by
  constructor
  · simp [Builder.orderLayerData, orderTomlDataFor, hv]
  · simp [Builder.buildpackLayerHasLatestSymlink, writesLatestSymlink, hv]

/-- A builder whose metadata records no lifecycle version. -/
def versionlessBuilder : Builder :=
  ⟨none, [], ⟨"", [], [], ⟨⟨"run", []⟩⟩, ⟨⟨none⟩, ⟨"", ""⟩⟩⟩,
    [], 0, 0, "stack1", false, []⟩

/-- Concrete instance of `no_lifecycle_version_modern_regime`. -/
theorem no_lifecycle_version_modern_regime_witness :
    Builder.orderLayerData versionlessBuilder = .current [] ∧
    Builder.buildpackLayerHasLatestSymlink versionlessBuilder = false :=
  no_lifecycle_version_modern_regime versionlessBuilder rfl

theorem runStages_nil : runStages [] = ([], .ok ()) := rfl

theorem runStages_cons_error (ops : List ImageOp) (e : SaveError) (rest : List Stage) :
    runStages ((ops, .error e) :: rest) = (ops, .error e) := rfl

theorem runStages_cons_ok (ops : List ImageOp) (rest : List Stage) :
    runStages ((ops, .ok ()) :: rest) =
      (ops ++ (runStages rest).1, (runStages rest).2) := rfl

/-- Running `runStages` on an appended list: an early failure hides the tail; a
successful head segment prepends its operations to the tail's run. -/
theorem runStages_append (ss ts : List Stage) :
    (∀ e, (runStages ss).2 = .error e → runStages (ss ++ ts) = runStages ss) ∧
    ((runStages ss).2 = .ok () →
      runStages (ss ++ ts) = ((runStages ss).1 ++ (runStages ts).1, (runStages ts).2)) := by
  induction ss with
  | nil =>
    refine ⟨fun e he => ?_, fun _ => ?_⟩
    · rw [runStages_nil] at he; cases he
    · simp [runStages_nil]
  | cons s rest ih =>
    obtain ⟨ops, r⟩ := s
    cases r with
    | error e =>
      refine ⟨fun e' he' => ?_, fun hok => ?_⟩
      · rw [List.cons_append, runStages_cons_error, runStages_cons_error]
      · rw [runStages_cons_error] at hok; cases hok
    | ok u =>
      cases u
      refine ⟨fun e' he' => ?_, fun hok => ?_⟩
      · rw [runStages_cons_ok] at he'
        rw [List.cons_append, runStages_cons_ok, runStages_cons_ok, ih.1 e' he']
      · rw [runStages_cons_ok] at hok
        rw [List.cons_append, runStages_cons_ok, runStages_cons_ok, ih.2 hok]
        simp [List.append_assoc]

/-- The run of a stage segment accounts against its planned operations:
what ran is a prefix of the plan, matches it exactly on success, and never
includes the commit. -/
def SegPlanned (s : Stage) (p : List ImageOp) : Prop :=
  (∃ rest, p = s.1 ++ rest) ∧ (s.2 = .ok () → s.1 = p) ∧ ImageOp.commit ∉ s.1

theorem SegPlanned.append {ss ts : List Stage} {ps pt : List ImageOp}
    (hs : SegPlanned (runStages ss) ps) (ht : SegPlanned (runStages ts) pt) :
    SegPlanned (runStages (ss ++ ts)) (ps ++ pt) := by
  obtain ⟨⟨r1, hr1⟩, hex1, hc1⟩ := hs
  obtain ⟨⟨r2, hr2⟩, hex2, hc2⟩ := ht
  cases hres : (runStages ss).2 with
  | error e =>
    rw [(runStages_append ss ts).1 e hres]
    refine ⟨⟨r1 ++ pt, by rw [hr1, List.append_assoc]⟩, fun hok => ?_, hc1⟩
    rw [hres] at hok; cases hok
  | ok u =>
    cases u
    rw [(runStages_append ss ts).2 hres]
    have h1 : (runStages ss).1 = ps := hex1 hres
    refine ⟨⟨r2, by rw [h1, hr2, List.append_assoc]⟩, fun hok => ?_, fun hmem => ?_⟩
    · simp only at hok
      rw [h1, hex2 hok]
    · simp only [List.mem_append] at hmem
      rcases hmem with h | h
      · exact hc1 h
      · exact hc2 h

theorem segPlanned_single (s : Stage) (p : List ImageOp)
    (h1 : ∃ rest, p = s.1 ++ rest) (h2 : s.2 = .ok () → s.1 = p)
    (h3 : ImageOp.commit ∉ s.1) : SegPlanned (runStages [s]) p := by
  obtain ⟨ops, r⟩ := s
  cases r with
  | error e =>
    rw [show [((ops, Except.error e) : Stage)] = ((ops, Except.error e) : Stage) :: [] from rfl,
      runStages_cons_error]
    exact ⟨h1, fun hok => by simp at hok, h3⟩
  | ok u =>
    cases u
    rw [show [((ops, Except.ok ()) : Stage)] = ((ops, Except.ok ()) : Stage) :: [] from rfl,
      runStages_cons_ok, runStages_nil]
    exact ⟨by simpa using h1, fun _ => by simpa using h2 rfl, by simpa using h3⟩

theorem addLayerOp_ops (img : ImageModel) (d : LayerDesc) (w : String → SaveError) :
    (addLayerOp img d w).1 = [.addLayer d] := by
  cases h : img.addLayerOk d <;> simp [addLayerOp, h]

theorem segPlanned_addLayerOp (img : ImageModel) (d : LayerDesc) (w : String → SaveError) :
    SegPlanned (runStages [addLayerOp img d w]) [ImageOp.addLayer d] := by
  apply segPlanned_single
  · exact ⟨[], by simp [addLayerOp_ops]⟩
  · intro _; rw [addLayerOp_ops]
  · rw [addLayerOp_ops]; simp

theorem segPlanned_nil : SegPlanned (runStages []) [] := by
  rw [runStages_nil]
  exact ⟨⟨[], rfl⟩, fun _ => rfl, by simp⟩

theorem segPlanned_lifecycle (img : ImageModel) (b : Builder) :
    SegPlanned (runStages (lifecycleStages img b))
      (match b.lifecycle with
        | some _ => [ImageOp.addLayer .lifecycle]
        | none => []) := by
  cases hl : b.lifecycle with
  | none => simp only [lifecycleStages, hl]; exact segPlanned_nil
  | some lc =>
    simp only [lifecycleStages, hl]
    cases ho : lc.blob.openResult with
    | error msg =>
      simp only [ho]
      apply segPlanned_single
      · exact ⟨[ImageOp.addLayer .lifecycle], rfl⟩
      · intro hok; simp at hok
      · simp
    | ok entries =>
      simp only [ho]
      exact segPlanned_addLayerOp img .lifecycle SaveError.addingLifecycleLayer

theorem segPlanned_buildpack (img : ImageModel) (md : Metadata) (bp : Buildpack) :
    SegPlanned (runStages [buildpackStage img md bp])
      [ImageOp.addLayer (.buildpack bp.info
        (writesLatestSymlink md.lifecycle.info.version))] := by
  cases ho : bp.blob.openResult with
  | error msg =>
    simp only [buildpackStage, ho]
    apply segPlanned_single
    · exact ⟨[ImageOp.addLayer (.buildpack bp.info
        (writesLatestSymlink md.lifecycle.info.version))], rfl⟩
    · intro hok; simp at hok
    · simp
  | ok entries =>
    simp only [buildpackStage, ho]
    exact segPlanned_addLayerOp img _ _

theorem segPlanned_buildpacks (img : ImageModel) (md : Metadata) (bps : List Buildpack) :
    SegPlanned (runStages (bps.map (buildpackStage img md)))
      (bps.map (fun bp => ImageOp.addLayer (.buildpack bp.info
        (writesLatestSymlink md.lifecycle.info.version)))) := by
  induction bps with
  | nil => exact segPlanned_nil
  | cons bp rest ih =>
    rw [List.map_cons, List.map_cons,
      show buildpackStage img md bp :: rest.map (buildpackStage img md) =
        [buildpackStage img md bp] ++ rest.map (buildpackStage img md) from rfl,
      show ImageOp.addLayer (.buildpack bp.info
          (writesLatestSymlink md.lifecycle.info.version)) ::
          rest.map (fun bp => ImageOp.addLayer (.buildpack bp.info
            (writesLatestSymlink md.lifecycle.info.version))) =
        [ImageOp.addLayer (.buildpack bp.info
          (writesLatestSymlink md.lifecycle.info.version))] ++
          rest.map (fun bp => ImageOp.addLayer (.buildpack bp.info
            (writesLatestSymlink md.lifecycle.info.version))) from rfl]
    exact SegPlanned.append (segPlanned_buildpack img md bp) ih

theorem segPlanned_order (img : ImageModel) (b : Builder) (order1 : Order) (md : Metadata) :
    SegPlanned (runStages (orderStages img b order1 md))
      (if b.replaceOrder then
        [ImageOp.addLayer (.order
          (orderTomlDataFor md.lifecycle.info.version md.groups order1))]
      else []) := by
  by_cases hro : b.replaceOrder
  · simp only [orderStages, if_pos hro]
    exact segPlanned_addLayerOp img _ _
  · simp only [orderStages, if_neg hro]
    exact segPlanned_nil

theorem segPlanned_setLabel (img : ImageModel) (md : Metadata) :
    SegPlanned (runStages [setLabelStage img md])
      [ImageOp.setLabel MetadataLabel md] := by
  cases h : img.setLabelOk with
  | none =>
    simp only [setLabelStage, h]
    apply segPlanned_single
    · exact ⟨[], by simp⟩
    · intro _; rfl
    · simp
  | some msg =>
    simp only [setLabelStage, h]
    apply segPlanned_single
    · exact ⟨[], by simp⟩
    · intro hok; simp at hok
    · simp

theorem segPlanned_setWorkingDir (img : ImageModel) :
    SegPlanned (runStages [setWorkingDirStage img])
      [ImageOp.setWorkingDir "/layers"] := by
  cases h : img.setWorkingDirOk with
  | none =>
    simp only [setWorkingDirStage, h]
    apply segPlanned_single
    · exact ⟨[], by simp⟩
    · intro _; rfl
    · simp
  | some msg =>
    simp only [setWorkingDirStage, h]
    apply segPlanned_single
    · exact ⟨[], by simp⟩
    · intro hok; simp at hok
    · simp

/-- The final composition: a commit-free front segment followed by the
commit stage gives the three `Save` accounting facts. -/
theorem save_front_commit (front : List Stage) (img : ImageModel) (pfront : List ImageOp)
    (h : SegPlanned (runStages front) pfront) :
    (∃ rest, pfront ++ [ImageOp.commit] =
      (runStages (front ++ [commitStage img])).1 ++ rest) ∧
    ((runStages (front ++ [commitStage img])).2 = .ok () →
      (runStages (front ++ [commitStage img])).1 = pfront ++ [ImageOp.commit]) ∧
    (∀ e, (runStages (front ++ [commitStage img])).2 = .error e →
      ImageOp.commit ∈ (runStages (front ++ [commitStage img])).1 →
      ∃ msg, e = .committing msg) := by
  obtain ⟨⟨r1, hr1⟩, hex1, hc1⟩ := h
  cases hres : (runStages front).2 with
  | error e =>
    rw [(runStages_append front [commitStage img]).1 e hres]
    refine ⟨⟨r1 ++ [ImageOp.commit], by rw [hr1, List.append_assoc]⟩, fun hok => ?_,
      fun e' he' hmem => absurd hmem hc1⟩
    rw [hres] at hok; cases hok
  | ok u =>
    cases u
    rw [(runStages_append front [commitStage img]).2 hres]
    have h1 : (runStages front).1 = pfront := hex1 hres
    cases hsave : img.saveOk with
    | none =>
      have hc : commitStage img = ([ImageOp.commit], .ok ()) := by
        simp [commitStage, hsave]
      rw [hc, show [(([ImageOp.commit], Except.ok ()) : Stage)] =
          (([ImageOp.commit], Except.ok ()) : Stage) :: [] from rfl,
        runStages_cons_ok, runStages_nil]
      refine ⟨⟨[], by simp [h1]⟩, fun _ => by simp [h1], fun e' he' _ => ?_⟩
      simp at he'
    | some msg =>
      have hc : commitStage img = ([ImageOp.commit], .error (.committing msg)) := by
        simp [commitStage, hsave]
      rw [hc, show [(([ImageOp.commit],
            Except.error (SaveError.committing msg)) : Stage)] =
          (([ImageOp.commit], Except.error (SaveError.committing msg)) : Stage) :: []
          from rfl,
        runStages_cons_error]
      refine ⟨⟨[], by simp [h1]⟩, fun hok => by simp at hok, fun e' he' _ => ?_⟩
      simp only at he'
      cases he'
      exact ⟨msg, rfl⟩


/-- Accounting of the stage list `Save` runs, for any resolved order and
updated metadata: the operations performed form a prefix of the planned
sequence, equal to it exactly on success, and a commit appears in the
trace of a failed run only when the failure is the commit's own. -/
theorem save_stages_spec (img : ImageModel) (b : Builder) (order1 : Order) (md1 : Metadata) :
    (∃ rest,
      ([ImageOp.addLayer .dirs, ImageOp.addLayer (.env b.env)] ++
        (match b.lifecycle with
          | some _ => [ImageOp.addLayer .lifecycle]
          | none => []) ++
        b.additionalBuildpacks.map (fun bp =>
          ImageOp.addLayer (.buildpack bp.info
            (writesLatestSymlink md1.lifecycle.info.version))) ++
        (if b.replaceOrder then
          [ImageOp.addLayer (.order
            (orderTomlDataFor md1.lifecycle.info.version md1.groups order1))]
        else []) ++
        [ImageOp.addLayer (.stack md1.stack),
          ImageOp.setLabel MetadataLabel md1,
          ImageOp.setWorkingDir "/layers",
          ImageOp.commit]) =
      (runStages
        ([addLayerOp img .dirs SaveError.addingDirsLayer,
          addLayerOp img (.env b.env) SaveError.addingEnvLayer] ++
          lifecycleStages img b ++
          b.additionalBuildpacks.map (buildpackStage img md1) ++
          orderStages img b order1 md1 ++
          [addLayerOp img (.stack md1.stack) SaveError.addingStackLayer,
            setLabelStage img md1,
            setWorkingDirStage img,
            commitStage img])).1 ++ rest) ∧
    ((runStages
        ([addLayerOp img .dirs SaveError.addingDirsLayer,
          addLayerOp img (.env b.env) SaveError.addingEnvLayer] ++
          lifecycleStages img b ++
          b.additionalBuildpacks.map (buildpackStage img md1) ++
          orderStages img b order1 md1 ++
          [addLayerOp img (.stack md1.stack) SaveError.addingStackLayer,
            setLabelStage img md1,
            setWorkingDirStage img,
            commitStage img])).2 = .ok () →
      (runStages
        ([addLayerOp img .dirs SaveError.addingDirsLayer,
          addLayerOp img (.env b.env) SaveError.addingEnvLayer] ++
          lifecycleStages img b ++
          b.additionalBuildpacks.map (buildpackStage img md1) ++
          orderStages img b order1 md1 ++
          [addLayerOp img (.stack md1.stack) SaveError.addingStackLayer,
            setLabelStage img md1,
            setWorkingDirStage img,
            commitStage img])).1 =
      [ImageOp.addLayer .dirs, ImageOp.addLayer (.env b.env)] ++
        (match b.lifecycle with
          | some _ => [ImageOp.addLayer .lifecycle]
          | none => []) ++
        b.additionalBuildpacks.map (fun bp =>
          ImageOp.addLayer (.buildpack bp.info
            (writesLatestSymlink md1.lifecycle.info.version))) ++
        (if b.replaceOrder then
          [ImageOp.addLayer (.order
            (orderTomlDataFor md1.lifecycle.info.version md1.groups order1))]
        else []) ++
        [ImageOp.addLayer (.stack md1.stack),
          ImageOp.setLabel MetadataLabel md1,
          ImageOp.setWorkingDir "/layers",
          ImageOp.commit]) ∧
    (∀ e,
      (runStages
        ([addLayerOp img .dirs SaveError.addingDirsLayer,
          addLayerOp img (.env b.env) SaveError.addingEnvLayer] ++
          lifecycleStages img b ++
          b.additionalBuildpacks.map (buildpackStage img md1) ++
          orderStages img b order1 md1 ++
          [addLayerOp img (.stack md1.stack) SaveError.addingStackLayer,
            setLabelStage img md1,
            setWorkingDirStage img,
            commitStage img])).2 = .error e →
      ImageOp.commit ∈
        (runStages
          ([addLayerOp img .dirs SaveError.addingDirsLayer,
            addLayerOp img (.env b.env) SaveError.addingEnvLayer] ++
            lifecycleStages img b ++
            b.additionalBuildpacks.map (buildpackStage img md1) ++
            orderStages img b order1 md1 ++
            [addLayerOp img (.stack md1.stack) SaveError.addingStackLayer,
              setLabelStage img md1,
              setWorkingDirStage img,
              commitStage img])).1 →
      ∃ msg, e = .committing msg) := by
  have hfront := SegPlanned.append
    (segPlanned_addLayerOp img .dirs SaveError.addingDirsLayer)
    (SegPlanned.append
      (segPlanned_addLayerOp img (.env b.env) SaveError.addingEnvLayer)
      (SegPlanned.append (segPlanned_lifecycle img b)
        (SegPlanned.append (segPlanned_buildpacks img md1 b.additionalBuildpacks)
          (SegPlanned.append (segPlanned_order img b order1 md1)
            (SegPlanned.append
              (segPlanned_addLayerOp img (.stack md1.stack) SaveError.addingStackLayer)
              (SegPlanned.append (segPlanned_setLabel img md1)
                (segPlanned_setWorkingDir img)))))))
  have hmain := save_front_commit _ img _ hfront
  have hlist :
      [addLayerOp img .dirs SaveError.addingDirsLayer] ++
        ([addLayerOp img (.env b.env) SaveError.addingEnvLayer] ++
          (lifecycleStages img b ++
            (b.additionalBuildpacks.map (buildpackStage img md1) ++
              (orderStages img b order1 md1 ++
                ([addLayerOp img (.stack md1.stack) SaveError.addingStackLayer] ++
                  ([setLabelStage img md1] ++ [setWorkingDirStage img])))))) ++
        [commitStage img] =
      [addLayerOp img .dirs SaveError.addingDirsLayer,
        addLayerOp img (.env b.env) SaveError.addingEnvLayer] ++
        lifecycleStages img b ++
        b.additionalBuildpacks.map (buildpackStage img md1) ++
        orderStages img b order1 md1 ++
        [addLayerOp img (.stack md1.stack) SaveError.addingStackLayer,
          setLabelStage img md1,
          setWorkingDirStage img,
          commitStage img] := by
    simp [List.append_assoc]
  have hplan :
      ([ImageOp.addLayer .dirs] ++
        ([ImageOp.addLayer (.env b.env)] ++
          ((match b.lifecycle with
            | some _ => [ImageOp.addLayer .lifecycle]
            | none => []) ++
            (b.additionalBuildpacks.map (fun bp =>
              ImageOp.addLayer (.buildpack bp.info
                (writesLatestSymlink md1.lifecycle.info.version))) ++
              ((if b.replaceOrder then
                [ImageOp.addLayer (.order
                  (orderTomlDataFor md1.lifecycle.info.version md1.groups order1))]
              else []) ++
                ([ImageOp.addLayer (.stack md1.stack)] ++
                  ([ImageOp.setLabel MetadataLabel md1] ++
                    [ImageOp.setWorkingDir "/layers"])))))) ++
        [ImageOp.commit]) =
      [ImageOp.addLayer .dirs, ImageOp.addLayer (.env b.env)] ++
        (match b.lifecycle with
          | some _ => [ImageOp.addLayer .lifecycle]
          | none => []) ++
        b.additionalBuildpacks.map (fun bp =>
          ImageOp.addLayer (.buildpack bp.info
            (writesLatestSymlink md1.lifecycle.info.version))) ++
        (if b.replaceOrder then
          [ImageOp.addLayer (.order
            (orderTomlDataFor md1.lifecycle.info.version md1.groups order1))]
        else []) ++
        [ImageOp.addLayer (.stack md1.stack),
          ImageOp.setLabel MetadataLabel md1,
          ImageOp.setWorkingDir "/layers",
          ImageOp.commit] := by
    simp [List.append_assoc]
  rw [hlist, hplan] at hmain
  exact hmain

/-- Accounting of a whole `Save` run against its planned operation
sequence: prefix always, equality on success, and a commit in a failed
run's trace only for the commit's own failure. -/
theorem save_ops_spec (img : ImageModel) (b : Builder) :
    (∃ rest, Builder.plannedOps b = (Builder.save img b).1 ++ rest) ∧
    ((Builder.save img b).2 = .ok () → (Builder.save img b).1 = Builder.plannedOps b) ∧
    (∀ e, (Builder.save img b).2 = .error e → ImageOp.commit ∈ (Builder.save img b).1 →
      ∃ msg, e = .committing msg) := by
  simp only [Builder.save, Builder.plannedOps]
  cases hpo : processOrder b.metadata.buildpacks b.order with
  | error e =>
    dsimp only
    exact ⟨⟨[], rfl⟩, fun hok => by simp at hok, fun e' he' hmem => by simp at hmem⟩
  | ok order1 =>
    dsimp only
    simp only [processMetadata]
    cases hvb : validateBuildpacks b.StackID b.additionalBuildpacks with
    | error e =>
      dsimp only
      exact ⟨⟨[], rfl⟩, fun hok => by simp at hok, fun e' he' hmem => by simp at hmem⟩
    | ok u =>
      cases u
      dsimp only
      exact save_stages_spec img b order1 _

/-- Claim C6: `Save` drives the image abstraction in exactly the planned
sequence — layers in the fixed order (directories, environment, lifecycle
only when set, one per pending buildpack in registration order, order only
when replaced, stack always), then the metadata label, the working
directory, and the commit (`Builder.plannedOps`).  On success the trace is
exactly that sequence; any run performs a prefix of it; a failing stage's
error (carried stage-by-stage in the `SaveError` constructors) is returned
as `Save`'s result and the commit is never invoked, except by the commit
stage's own failure. -/
theorem save_operation_sequence (img : ImageModel) (b : Builder) :
    (∃ rest, Builder.plannedOps b = (Builder.save img b).1 ++ rest) ∧
    ((Builder.save img b).2 = .ok () → (Builder.save img b).1 = Builder.plannedOps b) ∧
    (∀ e, (Builder.save img b).2 = .error e →
      ImageOp.commit ∈ (Builder.save img b).1 → ∃ msg, e = .committing msg) :=
  save_ops_spec img b

/-- An image abstraction accepting every operation. -/
def imgAllOk : ImageModel := ⟨fun _ => none, none, none, none⟩

/-- A lifecycle carrying the default descriptor over an empty archive. -/
def sampleLifecycle : Lifecycle := ⟨DefaultLifecycleDescriptor, ⟨.ok []⟩⟩

/-- A leaf buildpack supporting stack1. -/
def sampleBp : Buildpack := ⟨⟨"bp1", "1.0"⟩, [], ["stack1"], ⟨.ok []⟩⟩

/-- A builder with one pending buildpack, a lifecycle, and a replaced
order referencing bp1 with an empty version. -/
def sampleBuilder : Builder :=
  ⟨some sampleLifecycle, [sampleBp],
    ⟨"", [⟨⟨"bp1", "1.0"⟩⟩], [], ⟨⟨"run", []⟩⟩, ⟨⟨none⟩, ⟨"", ""⟩⟩⟩,
    [("CNB_VAR", "x")], 1000, 1000, "stack1", true, [⟨[⟨⟨"bp1", ""⟩, false⟩]⟩]⟩

/-- Concrete instance of `save_operation_sequence`: this builder's save
succeeds, so its trace is exactly the planned sequence. -/
theorem save_operation_sequence_witness :
    (Builder.save imgAllOk sampleBuilder).1 = Builder.plannedOps sampleBuilder :=
  (save_operation_sequence imgAllOk sampleBuilder).2.1 (by decide)

/-- Function `withLifecycleDescriptor` never touches the groups field. -/
theorem withLifecycleDescriptor_groups (b : Builder) (md : Metadata) :
    (withLifecycleDescriptor b md).groups = md.groups := by
  cases hl : b.lifecycle <;> simp [withLifecycleDescriptor, hl]

/-- In a trace made of four add-layer-only segments followed by the fixed
tail, the only set-label operation is the tail's. -/
theorem setLabel_mem_of_planned (l1 l2 l3 l4 : List ImageOp) (s : LayerDesc)
    (L : String) (M : Metadata) (lbl : String) (md : Metadata)
    (h1 : ∀ x ∈ l1, ∃ d, x = ImageOp.addLayer d)
    (h2 : ∀ x ∈ l2, ∃ d, x = ImageOp.addLayer d)
    (h3 : ∀ x ∈ l3, ∃ d, x = ImageOp.addLayer d)
    (h4 : ∀ x ∈ l4, ∃ d, x = ImageOp.addLayer d)
    (hmem : ImageOp.setLabel lbl md ∈
      l1 ++ l2 ++ l3 ++ l4 ++
        [ImageOp.addLayer s, ImageOp.setLabel L M, ImageOp.setWorkingDir "/layers",
          ImageOp.commit]) :
    lbl = L ∧ md = M := by
  simp only [List.mem_append] at hmem
  rcases hmem with (((hm | hm) | hm) | hm) | hm
  · rcases h1 _ hm with ⟨d, hd⟩; simp at hd
  · rcases h2 _ hm with ⟨d, hd⟩; simp at hd
  · rcases h3 _ hm with ⟨d, hd⟩; simp at hd
  · rcases h4 _ hm with ⟨d, hd⟩; simp at hd
  · simp only [List.mem_cons, List.not_mem_nil, or_false] at hm
    rcases hm with hm | hm | hm | hm
    · simp at hm
    · injection hm with ha hb
      exact ⟨ha, hb⟩
    · simp at hm
    · simp at hm

/-- Claim C8: on every successful `Save`, the metadata serialized into the
metadata label carries a groups field regenerated from the resolved order
of the same run (the derived view `Order.toV1Order`), never a stale value:
some set-label operation with exactly that groups view is in the trace,
and every set-label operation of the trace has it. -/
theorem save_groups_derived (img : ImageModel) (b : Builder) (ops : List ImageOp)
    (h : Builder.save img b = (ops, .ok ())) :
    ∃ order1, processOrder b.metadata.buildpacks b.order = .ok order1 ∧
      (∃ md, ImageOp.setLabel MetadataLabel md ∈ ops ∧
        md.groups = Order.toV1Order order1) ∧
      (∀ lbl md, ImageOp.setLabel lbl md ∈ ops →
        lbl = MetadataLabel ∧ md.groups = Order.toV1Order order1) := by
  have h2 : (Builder.save img b).2 = .ok () := by rw [h]
  have h1 : (Builder.save img b).1 = ops := by rw [h]
  have hops : ops = Builder.plannedOps b := by
    rw [← h1]; exact (save_ops_spec img b).2.1 h2
  cases hpo : processOrder b.metadata.buildpacks b.order with
  | error e =>
    exfalso
    have hbad : (Builder.save img b).2 = .error (.processingOrder e) := by
      simp only [Builder.save, hpo]
    rw [hbad] at h2
    cases h2
  | ok order1 =>
    cases hvb : validateBuildpacks b.StackID b.additionalBuildpacks with
    | error e =>
      exfalso
      have hbad : (Builder.save img b).2 = .error (.validatingBuildpacks e) := by
        simp only [Builder.save, hpo, processMetadata, hvb]
      rw [hbad] at h2
      cases h2
    | ok u =>
      cases u
      have hplan : Builder.plannedOps b =
          [ImageOp.addLayer .dirs, ImageOp.addLayer (.env b.env)] ++
            (match b.lifecycle with
              | some _ => [ImageOp.addLayer .lifecycle]
              | none => []) ++
            b.additionalBuildpacks.map (fun bp =>
              ImageOp.addLayer (.buildpack bp.info
                (writesLatestSymlink (withLifecycleDescriptor b
                  { b.metadata with groups := Order.toV1Order order1 }).lifecycle.info.version))) ++
            (if b.replaceOrder then
              [ImageOp.addLayer (.order
                (orderTomlDataFor (withLifecycleDescriptor b
                  { b.metadata with groups := Order.toV1Order order1 }).lifecycle.info.version
                  (withLifecycleDescriptor b
                    { b.metadata with groups := Order.toV1Order order1 }).groups order1))]
            else []) ++
            [ImageOp.addLayer (.stack (withLifecycleDescriptor b
                { b.metadata with groups := Order.toV1Order order1 }).stack),
              ImageOp.setLabel MetadataLabel (withLifecycleDescriptor b
                { b.metadata with groups := Order.toV1Order order1 }),
              ImageOp.setWorkingDir "/layers",
              ImageOp.commit] := by
        simp only [Builder.plannedOps, hpo, processMetadata, hvb]
      have hgroups : (withLifecycleDescriptor b
          { b.metadata with groups := Order.toV1Order order1 }).groups =
          Order.toV1Order order1 := by
        rw [withLifecycleDescriptor_groups]
      refine ⟨order1, rfl, ?_, ?_⟩
      · refine ⟨withLifecycleDescriptor b
          { b.metadata with groups := Order.toV1Order order1 }, ?_, hgroups⟩
        rw [hops, hplan]
        simp
      · intro lbl md hmem
        rw [hops, hplan] at hmem
        have hm := setLabel_mem_of_planned _ _ _ _ _ _ _ lbl md
          (by intro x hx; simp only [List.mem_cons, List.not_mem_nil, or_false] at hx
              rcases hx with rfl | rfl
              · exact ⟨_, rfl⟩
              · exact ⟨_, rfl⟩)
          (by intro x hx
              cases hlc : b.lifecycle <;> rw [hlc] at hx
              · simp at hx
              · simp only [List.mem_singleton] at hx; exact ⟨_, hx⟩)
          (by intro x hx
              simp only [List.mem_map] at hx
              rcases hx with ⟨bp, _, hfx⟩
              exact ⟨_, hfx.symm⟩)
          (by intro x hx
              by_cases hro : b.replaceOrder
              · rw [if_pos hro] at hx
                simp only [List.mem_singleton] at hx
                exact ⟨_, hx⟩
              · rw [if_neg hro] at hx
                simp at hx)
          hmem
        exact ⟨hm.1, by rw [hm.2]; exact hgroups⟩

/-- Concrete instance of `save_groups_derived` on a successful save. -/
theorem save_groups_derived_witness :
    ∃ order1, processOrder sampleBuilder.metadata.buildpacks sampleBuilder.order =
        .ok order1 ∧
      (∃ md, ImageOp.setLabel MetadataLabel md ∈
          (Builder.save imgAllOk sampleBuilder).1 ∧
        md.groups = Order.toV1Order order1) ∧
      (∀ lbl md, ImageOp.setLabel lbl md ∈ (Builder.save imgAllOk sampleBuilder).1 →
        lbl = MetadataLabel ∧ md.groups = Order.toV1Order order1) :=
  save_groups_derived imgAllOk sampleBuilder (Builder.save imgAllOk sampleBuilder).1
    (by decide)

/-- A buildpack whose archive blob fails to open. -/
def badBlobBp : Buildpack :=
  ⟨⟨"bad-bp", "1.0"⟩, [], ["stack1"], ⟨.error "disk failure"⟩⟩

/-- A builder embedding only the bad-blob buildpack. -/
def badBlobBuilder : Builder :=
  ⟨none, [badBlobBp], ⟨"", [], [], ⟨⟨"run", []⟩⟩, ⟨⟨none⟩, ⟨"", ""⟩⟩⟩,
    [], 0, 0, "stack1", false, []⟩

/-- Claim C7 concerns a slip in the code: in `embedBuildpackTar` the
result of `errors.Wrap(err, "read buildpack blob")` for a failed
`bp.Open()` is discarded instead of returned, so `Save` does not fail with
a wrapped error carrying the buildpack's identity — it goes on to read the
nil reader and crashes.  Evaluated at the failing input: the run stops at
the buildpack layer with the crash outcome, not with the wrapped
identity-carrying error the source visibly meant to return. -/
theorem save_swallows_blob_open_error :
    Builder.save imgAllOk badBlobBuilder =
      ([ImageOp.addLayer .dirs, ImageOp.addLayer (.env [])],
        .error .nilReaderCrash) := by
  decide

/-- One ref table of the current-shape order document, with explicit field
presence (TOML encoding/decoding is an external collaborator; the struct
tags in src give keys `order`, `group` and `optional,omitempty`, the
spec's document shape gives `id` and `version`). -/
structure RefDoc where
  id : Option String
  version : Option String
  optional : Option Bool
deriving DecidableEq, Repr

/-- One group table of the order document. -/
structure GroupDoc where
  group : List RefDoc
deriving DecidableEq, Repr

/-- The current-shape order document: entries wrapped under `order`. -/
structure OrderDoc where
  order : List GroupDoc
deriving DecidableEq, Repr

/-- Encoding one ref: id and version always present; `optional,omitempty`
omits the flag when it is false. -/
def encodeRef (r : BuildpackRef) : RefDoc :=
  ⟨some r.info.id, some r.info.version, if r.optional then some true else none⟩

/-- Encoding an order as the current-shape document (`orderTOML`). -/
def encodeOrderDoc (o : Order) : OrderDoc :=
  ⟨o.map (fun e => ⟨e.group.map encodeRef⟩)⟩

/-- Decoding one ref table: an absent key decodes to the zero value
("" for the strings, false for the flag). -/
def decodeRef (d : RefDoc) : BuildpackRef :=
  ⟨⟨d.id.getD "", d.version.getD ""⟩, d.optional.getD false⟩

/-- Decoding the current-shape order document back into an order. -/
def decodeOrderDoc (d : OrderDoc) : Order :=
  d.order.map (fun g => ⟨g.group.map decodeRef⟩)

theorem decodeRef_encodeRef (r : BuildpackRef) : decodeRef (encodeRef r) = r := by
  obtain ⟨⟨i, v⟩, opt⟩ := r
  cases opt <;> rfl

/-- Claim C9: encoding an order as the current-shape document and decoding
it yields the original order — same group sequence, and within each group
the same refs with the same ids, versions and optional flags. -/
theorem order_toml_round_trip (o : Order) :
    decodeOrderDoc (encodeOrderDoc o) = o := by
  unfold decodeOrderDoc encodeOrderDoc
  simp only [List.map_map]
  have : ∀ e : OrderEntry,
      ((fun g : GroupDoc => (⟨g.group.map decodeRef⟩ : OrderEntry)) ∘
        fun e : OrderEntry => (⟨e.group.map encodeRef⟩ : GroupDoc)) e = e := by
    intro e
    simp only [Function.comp]
    have hgrp : (e.group.map encodeRef).map decodeRef = e.group := by
      rw [List.map_map]
      simp only [Function.comp_def]
      rw [List.map_congr_left (fun r _ => decodeRef_encodeRef r)]
      exact List.map_id e.group
    rw [hgrp]
  rw [List.map_congr_left (fun e _ => this e)]
  exact List.map_id o
